import Mathlib

/-!
Shallow embedding of the signing core of the dmoney payment shim:
`createRawRequest`, `generateSignature` and `loadPrivateKey` from the
main server source, together with proofs of the testable properties of
its specification.
-/

/-- A JavaScript value that can appear in a parameter mapping: a string,
a number, `null`, or `undefined`. -/
inductive JSValue where
  | str : String → JSValue
  | num : Int → JSValue
  | null : JSValue
  | undef : JSValue
deriving DecidableEq

/-- JavaScript `String(value)` conversion for the values of `JSValue`. -/
def jsToString : JSValue → String
  | .str s => s
  | .num n => toString n
  | .null => "null"
  | .undef => "undefined"

/-- The character class stripped by `String.prototype.trim`: the
ECMAScript WhiteSpace characters (tab, vertical tab, form feed, space,
no-break space, zero-width no-break space, and the Unicode space
separators) together with the LineTerminator characters (line feed,
carriage return, line separator, paragraph separator). -/
def isJsWhitespace (c : Char) : Bool :=
  let n := c.toNat
  n = 0x09 || n = 0x0A || n = 0x0B || n = 0x0C || n = 0x0D || n = 0x20
    || n = 0xA0 || n = 0x1680 || (0x2000 ≤ n && n ≤ 0x200A) || n = 0x2028
    || n = 0x2029 || n = 0x202F || n = 0x205F || n = 0x3000 || n = 0xFEFF

/-- Whitespace trimming on a character list, from both ends, embedding
`String.prototype.trim`. -/
def trimChars (cs : List Char) : List Char :=
  ((cs.dropWhile isJsWhitespace).reverse.dropWhile isJsWhitespace).reverse

/-- Whitespace trimming on strings, embedding `String.prototype.trim`. -/
def strTrim (s : String) : String :=
  String.mk (trimChars s.data)

/-- Codepoint-wise lexicographic comparison of character lists: the order
used by the default `Array.prototype.sort` comparator on strings. -/
def charListLe : List Char → List Char → Bool
  | [], _ => true
  | _ :: _, [] => false
  | a :: as, b :: bs =>
    if a.toNat < b.toNat then true
    else if b.toNat < a.toNat then false
    else charListLe as bs

/-- String comparison used when sorting the canonical keys. -/
def strLe (a b : String) : Bool :=
  charListLe a.data b.data

/-- The sorting relation on keys, as a proposition. -/
def strLeRel (a b : String) : Prop :=
  strLe a b = true

instance (a b : String) : Decidable (strLeRel a b) :=
  inferInstanceAs (Decidable (strLe a b = true))

/-- A parameter mapping, as enumerated by `Object.entries`: an association
list of keys and values.  A JS object never holds the same key twice, so
theorems that need uniqueness take a `Nodup` hypothesis on the key list. -/
abbrev Params := List (String × JSValue)

/-- The key set excluded from canonicalization (`excludedParams` in
`createRawRequest`). -/
def excludedParams : List String := ["sign", "sign_type", "biz_content"]

/-- The filter condition of `createRawRequest`: the key is not excluded,
the value is neither `null` nor `undefined`, and its string conversion
does not trim to the empty string. -/
def includeEntry (key : String) (value : JSValue) : Bool :=
  !excludedParams.contains key
    && !(decide (value = JSValue.null))
    && !(decide (value = JSValue.undef))
    && !(decide (strTrim (jsToString value) = ""))

/-- The filtered parameter object built by `createRawRequest`: excluded and
blank entries dropped, remaining values coerced to strings. -/
def filteredParams (params : Params) : List (String × String) :=
  (params.filter fun p => includeEntry p.1 p.2).map fun p => (p.1, jsToString p.2)

/-- The sorted key list `Object.keys(filteredParams).sort()`. -/
def canonicalKeys (params : Params) : List String :=
  List.insertionSort strLeRel ((filteredParams params).map Prod.fst)

/-- The `key=value` pieces of the canonical string, in sorted key order. -/
def canonicalPairs (params : Params) : List String :=
  (canonicalKeys params).map fun key =>
    key ++ "=" ++ ((filteredParams params).lookup key).getD ""

/-- `createRawRequest`: the canonical string, the sorted `key=value` pieces
joined with an ampersand. -/
def createRawRequest (params : Params) : String :=
  "&".intercalate (canonicalPairs params)

/-- The process environment fields read by `loadPrivateKey`.  A variable
is `none` when unset. -/
structure Env where
  PRIVATE_KEY : Option String
  PRIVATE_KEY_PATH : Option String

/-- JS truthiness of an optional environment string: an unset variable and
the empty string are both falsy. -/
def truthy : Option String → Bool
  | some s => !(decide (s = ""))
  | none => false

/-- The filesystem as seen by `fs.readFileSync`: `some contents` on
success, `none` when the read throws. -/
abbrev FileSys := String → Option String

/-- `loadPrivateKey`: the environment variable `PRIVATE_KEY` when truthy,
otherwise the contents of the file named by `PRIVATE_KEY_PATH` when that
is truthy (a failed read is logged and yields `null`), otherwise `null`. -/
def loadPrivateKey (env : Env) (fs : FileSys) : Option String :=
  if truthy env.PRIVATE_KEY then env.PRIVATE_KEY
  else if truthy env.PRIVATE_KEY_PATH then
    match fs (env.PRIVATE_KEY_PATH.getD "") with
    | some contents => some contents
    | none => none
  else none

/-- The RSA padding constants of `crypto.constants` used here. -/
inductive RSAPadding where
  | RSA_PKCS1_PADDING
  | RSA_PKCS1_PSS_PADDING
deriving DecidableEq

/-- The arguments of one `crypto.sign` call: the digest algorithm, the
message bytes, the key in PEM form, and the padding options. -/
structure SignRequest where
  algorithm : String
  data : List Nat
  key : String
  padding : RSAPadding
  saltLength : Nat
  mgf1Hash : String

/-- A signing primitive standing for `crypto.sign`: the raw signature
bytes, or the message of the error thrown when the primitive rejects the
key or the payload. -/
abbrev CryptoSign := SignRequest → Except String (List Nat)

/-- UTF-8 encoding of one character, as byte values. -/
def utf8EncodeChar (c : Char) : List Nat :=
  let n := c.toNat
  if n < 128 then [n]
  else if n < 2048 then [192 + n / 64, 128 + n % 64]
  else if n < 65536 then [224 + n / 4096, 128 + n / 64 % 64, 128 + n % 64]
  else [240 + n / 262144, 128 + n / 4096 % 64, 128 + n / 64 % 64, 128 + n % 64]

/-- UTF-8 encoding of a character list. -/
def utf8EncodeList : List Char → List Nat
  | [] => []
  | c :: cs => utf8EncodeChar c ++ utf8EncodeList cs

/-- UTF-8 bytes of a string (`Buffer.from(rawString, "utf-8")`). -/
def utf8Encode (s : String) : List Nat :=
  utf8EncodeList s.data

/-- The standard base64 alphabet. -/
def base64Alphabet : List Char :=
  "ABCDEFGHIJKLMNOPQRSTUVWXYZabcdefghijklmnopqrstuvwxyz0123456789+/".toList

/-- The base64 character of a 6-bit group. -/
def base64Char (n : Nat) : Char :=
  base64Alphabet.getD n 'A'

/-- Standard base64 with padding, three input bytes at a time
(`Buffer.prototype.toString` with the base64 encoding). -/
def base64Chunks : List Nat → List Char
  | [] => []
  | [b0] => [base64Char (b0 / 4), base64Char (b0 % 4 * 16), '=', '=']
  | [b0, b1] =>
      [base64Char (b0 / 4), base64Char (b0 % 4 * 16 + b1 / 16), base64Char (b1 % 16 * 4), '=']
  | b0 :: b1 :: b2 :: rest =>
      base64Char (b0 / 4) :: base64Char (b0 % 4 * 16 + b1 / 16) ::
        base64Char (b1 % 16 * 4 + b2 / 64) :: base64Char (b2 % 64) :: base64Chunks rest

/-- Base64 encoding of a byte list as a string. -/
def base64Encode (bytes : List Nat) : String :=
  String.mk (base64Chunks bytes)

/-- `generateSignature`: build the canonical string, resolve the private
key — the source tests the resolved key for JS falsiness, so both a null
key and an empty-string key throw the key-not-available error — then call
`crypto.sign` with the SHA-256 digest, PSS padding, salt length 32 and
MGF1 over SHA-256 on the UTF-8 bytes of the canonical string, and
base64-encode the resulting bytes.  An error thrown by the primitive
propagates to the caller. -/
def generateSignature (cryptoSign : CryptoSign) (env : Env) (fs : FileSys)
    (params : Params) : Except String String :=
  let rawString := createRawRequest params
  match loadPrivateKey env fs with
  | none => .error "Private key not available for signing"
  | some key =>
    if key = "" then .error "Private key not available for signing"
    else
      match cryptoSign ⟨"sha256", utf8Encode rawString, key, .RSA_PKCS1_PSS_PADDING, 32, "sha256"⟩ with
      | .error e => .error e
      | .ok sig => .ok (base64Encode sig)

/-- Modelled from the spec: the contract of section 6,
`sign(params, privateKeyPem)`, a signer that receives the already resolved
key, or its absence, as an explicit argument.  Used to state how the
implemented `generateSignature` relates to that contract. -/
def specSign (cryptoSign : CryptoSign) (privateKey : Option String)
    (params : Params) : Except String String :=
  match privateKey with
  | none => .error "Private key not available for signing"
  | some key =>
    match cryptoSign ⟨"sha256", utf8Encode (createRawRequest params), key,
        .RSA_PKCS1_PSS_PADDING, 32, "sha256"⟩ with
    | .error e => .error e
    | .ok sig => .ok (base64Encode sig)

/-- The comparison of character lists is total. -/
theorem charListLe_total : ∀ as bs, charListLe as bs = true ∨ charListLe bs as = true
  | [], _ => Or.inl rfl
  | _ :: _, [] => Or.inr rfl
  | a :: as, b :: bs => by
    unfold charListLe
    by_cases hab : a.toNat < b.toNat
    · exact Or.inl (by rw [if_pos hab])
    · by_cases hba : b.toNat < a.toNat
      · exact Or.inr (by rw [if_pos hba])
      · rw [if_neg hab, if_neg hba, if_neg hba, if_neg hab]
        exact charListLe_total as bs

/-- The comparison of character lists is transitive. -/
theorem charListLe_trans : ∀ as bs cs, charListLe as bs = true → charListLe bs cs = true →
    charListLe as cs = true
  | [], _, _, _, _ => rfl
  | _ :: _, [], _, h₁, _ => by simp [charListLe] at h₁
  | _ :: _, _ :: _, [], _, h₂ => by simp [charListLe] at h₂
  | a :: as, b :: bs, c :: cs, h₁, h₂ => by
    unfold charListLe at h₁ h₂ ⊢
    split at h₁
    · rename_i hab
      split at h₂
      · rename_i hbc
        rw [if_pos (Nat.lt_trans hab hbc)]
      · split at h₂
        · exact absurd h₂ (by simp)
        · rename_i hbc hcb
          rw [if_pos (by omega : a.toNat < c.toNat)]
    · split at h₁
      · exact absurd h₁ (by simp)
      · rename_i hab hba
        split at h₂
        · rename_i hbc
          rw [if_pos (by omega : a.toNat < c.toNat)]
        · split at h₂
          · exact absurd h₂ (by simp)
          · rename_i hbc hcb
            rw [if_neg (by omega : ¬a.toNat < c.toNat), if_neg (by omega : ¬c.toNat < a.toNat)]
            exact charListLe_trans as bs cs h₁ h₂

/-- The comparison of character lists is antisymmetric. -/
theorem charListLe_antisymm : ∀ as bs, charListLe as bs = true → charListLe bs as = true →
    as = bs
  | [], [], _, _ => rfl
  | [], _ :: _, _, h₂ => by simp [charListLe] at h₂
  | _ :: _, [], h₁, _ => by simp [charListLe] at h₁
  | a :: as, b :: bs, h₁, h₂ => by
    unfold charListLe at h₁ h₂
    split at h₁
    · rename_i hab
      rw [if_neg (by omega : ¬b.toNat < a.toNat), if_pos hab] at h₂
      exact absurd h₂ (by simp)
    · split at h₁
      · exact absurd h₁ (by simp)
      · rename_i hab hba
        rw [if_neg hba, if_neg hab] at h₂
        have hn : a.toNat = b.toNat := by omega
        have hc : a = b := by
          have h := congrArg Char.ofNat hn
          rwa [Char.ofNat_toNat, Char.ofNat_toNat] at h
        exact hc ▸ congrArg (List.cons a) (charListLe_antisymm as bs h₁ h₂)

instance : IsTotal String strLeRel :=
  ⟨fun a b => charListLe_total a.data b.data⟩

instance : IsTrans String strLeRel :=
  ⟨fun a b c => charListLe_trans a.data b.data c.data⟩

instance : IsAntisymm String strLeRel :=
  ⟨fun a b h₁ h₂ => by
    cases a with
    | mk da => cases b with
      | mk db => exact congrArg String.mk (charListLe_antisymm da db h₁ h₂)⟩

/-- Unfolding of the filter condition into propositions. -/
theorem includeEntry_eq_true {key : String} {value : JSValue} :
    includeEntry key value = true ↔
      key ∉ excludedParams ∧ value ≠ JSValue.null ∧ value ≠ JSValue.undef ∧
        strTrim (jsToString value) ≠ "" := by
  simp [includeEntry, List.contains, List.elem_eq_mem, and_assoc]

/-- Membership in the sorted key list is membership in the filtered keys. -/
theorem mem_canonicalKeys {params : Params} {k : String} :
    k ∈ canonicalKeys params ↔ k ∈ (filteredParams params).map Prod.fst := by
  unfold canonicalKeys
  exact (List.perm_insertionSort _ _).mem_iff

/-- A key survives filtering exactly when some entry of the mapping holds it
with an includable value. -/
theorem mem_filteredParams_keys {params : Params} {k : String} :
    k ∈ (filteredParams params).map Prod.fst ↔
      ∃ v, (k, v) ∈ params ∧ includeEntry k v = true := by
  unfold filteredParams
  constructor
  · intro h
    rcases List.mem_map.mp h with ⟨q, hq, hqk⟩
    rcases List.mem_map.mp hq with ⟨p, hp, hpq⟩
    rcases List.mem_filter.mp hp with ⟨hpmem, hpinc⟩
    have hk : p.1 = k := by rw [← hqk, ← hpq]
    refine ⟨p.2, ?_, ?_⟩
    · rw [← hk]
      simpa using hpmem
    · rw [← hk]
      exact hpinc
  · rintro ⟨v, hv, hinc⟩
    exact List.mem_map.mpr ⟨(k, jsToString v),
      List.mem_map.mpr ⟨(k, v), List.mem_filter.mpr ⟨hv, hinc⟩, rfl⟩, rfl⟩

/-- In a mapping whose keys are distinct, a key determines its value. -/
theorem value_eq_of_nodup_keys {β : Type} {l : List (String × β)}
    (hnd : (l.map Prod.fst).Nodup) {k : String} {a b : β}
    (ha : (k, a) ∈ l) (hb : (k, b) ∈ l) : a = b := by
  induction l with
  | nil => cases ha
  | cons p t ih =>
    rw [List.map_cons, List.nodup_cons] at hnd
    rcases List.mem_cons.mp ha with ha1 | ha1 <;> rcases List.mem_cons.mp hb with hb1 | hb1
    · rw [← ha1] at hb1
      exact (Prod.mk.injEq _ _ _ _ ▸ hb1).2.symm
    · exact absurd (List.mem_map.mpr ⟨(k, b), hb1, by rw [← ha1]⟩) hnd.1
    · exact absurd (List.mem_map.mpr ⟨(k, a), ha1, by rw [← hb1]⟩) hnd.1
    · exact ih hnd.2 ha1 hb1

/-- With distinct keys, association lookup finds exactly the stored pair. -/
theorem lookup_eq_some_iff {l : List (String × String)}
    (hnd : (l.map Prod.fst).Nodup) {k v : String} :
    l.lookup k = some v ↔ (k, v) ∈ l := by
  induction l with
  | nil => simp
  | cons p t ih =>
    rw [List.map_cons, List.nodup_cons] at hnd
    rcases p with ⟨pk, pv⟩
    rw [List.lookup_cons]
    by_cases hk : k = pk
    · subst hk
      simp only [beq_self_eq_true]
      constructor
      · intro h
        exact List.mem_cons.mpr (Or.inl (by rw [Option.some_inj.mp h]))
      · intro h
        rcases List.mem_cons.mp h with h1 | h1
        · injection h1 with h2 h3
          rw [h3]
        · exact absurd (List.mem_map.mpr ⟨(k, v), h1, rfl⟩) hnd.1
    · have hbeq : (k == pk) = false := beq_eq_false_iff_ne.mpr hk
      rw [hbeq]
      rw [ih hnd.2]
      constructor
      · exact fun h => List.mem_cons.mpr (Or.inr h)
      · intro h
        rcases List.mem_cons.mp h with h1 | h1
        · injection h1 with h2 h3
          exact absurd h2 hk
        · exact h1

/-- Association lookup misses exactly the keys outside the mapping. -/
theorem lookup_eq_none_iff {l : List (String × String)} {k : String} :
    l.lookup k = none ↔ k ∉ l.map Prod.fst := by
  induction l with
  | nil => simp
  | cons p t ih =>
    rcases p with ⟨pk, pv⟩
    rw [List.lookup_cons]
    by_cases hk : k = pk
    · subst hk
      simp
    · have hbeq : (k == pk) = false := beq_eq_false_iff_ne.mpr hk
      rw [hbeq]
      simp [ih, hk]

/-- With distinct keys, lookup is invariant under permutation. -/
theorem lookup_eq_of_perm {l₁ l₂ : List (String × String)}
    (hnd : (l₁.map Prod.fst).Nodup) (hp : l₁.Perm l₂) (k : String) :
    l₁.lookup k = l₂.lookup k := by
  have hnd₂ : (l₂.map Prod.fst).Nodup := ((hp.map Prod.fst).nodup_iff).mp hnd
  cases h₁ : l₁.lookup k with
  | none =>
    have hk : k ∉ l₂.map Prod.fst := fun h =>
      (lookup_eq_none_iff.mp h₁) ((hp.map Prod.fst).mem_iff.mpr h)
    exact (lookup_eq_none_iff.mpr hk).symm
  | some v =>
    exact ((lookup_eq_some_iff hnd₂).mpr (hp.subset ((lookup_eq_some_iff hnd).mp h₁))).symm

/-- The filtered keys are the keys of the filtered entries. -/
theorem filteredParams_keys (params : Params) :
    (filteredParams params).map Prod.fst =
      (params.filter fun p => includeEntry p.1 p.2).map Prod.fst := by
  unfold filteredParams
  rw [List.map_map]
  exact List.map_congr_left fun p _ => rfl

/-- Distinct keys of the mapping give distinct keys after filtering. -/
theorem filteredParams_keys_nodup {params : Params}
    (hnd : (params.map Prod.fst).Nodup) :
    ((filteredParams params).map Prod.fst).Nodup := by
  rw [filteredParams_keys]
  exact ((List.filter_sublist params).map Prod.fst).nodup hnd

/-- Filtering respects permutation of the mapping. -/
theorem filteredParams_perm {p₁ p₂ : Params} (hp : p₁.Perm p₂) :
    (filteredParams p₁).Perm (filteredParams p₂) :=
  (hp.filter _).map _

/-- The sorted key list depends only on the mapping up to permutation. -/
theorem canonicalKeys_perm_eq {p₁ p₂ : Params} (hp : p₁.Perm p₂) :
    canonicalKeys p₁ = canonicalKeys p₂ := by
  apply List.eq_of_perm_of_sorted (r := strLeRel)
  · exact (List.perm_insertionSort _ _).trans
      (((filteredParams_perm hp).map Prod.fst).trans (List.perm_insertionSort _ _).symm)
  · exact List.sorted_insertionSort _ _
  · exact List.sorted_insertionSort _ _

/-- C1: on the query-order example mapping, `createRawRequest` returns
exactly the key=value pairs in ascending lexicographic key order joined
by ampersands. -/
theorem createRawRequest_queryorder_example :
    createRawRequest
      [("merch_order_id", JSValue.str "1700000000001"), ("appid", JSValue.str "A"),
       ("merch_code", JSValue.str "M"), ("method", JSValue.str "payment.queryorder"),
       ("nonce_str", JSValue.str "abc123"), ("timestamp", JSValue.str "1700000000"),
       ("version", JSValue.str "1.0")] =
    "appid=A&merch_code=M&merch_order_id=1700000000001&method=payment.queryorder&nonce_str=abc123&timestamp=1700000000&version=1.0" := by
  decide

/-- C2: for every parameter mapping, none of the keys sign, sign_type and
biz_content is among the keys whose key=value pairs form the canonical
string of `createRawRequest`. -/
theorem canonicalKeys_no_reserved (params : Params) :
    "sign" ∉ canonicalKeys params ∧ "sign_type" ∉ canonicalKeys params ∧
      "biz_content" ∉ canonicalKeys params := by
  refine ⟨?_, ?_, ?_⟩ <;>
  · intro h
    rcases mem_filteredParams_keys.mp (mem_canonicalKeys.mp h) with ⟨v, hmem, hinc⟩
    rcases includeEntry_eq_true.mp hinc with ⟨hex, -, -, -⟩
    exact hex (by decide)

/-- C2 witness: instantiated on a mapping that holds all three reserved
keys with nonblank values. -/
theorem canonicalKeys_no_reserved_witness :
    "sign" ∉ canonicalKeys
      [("sign", JSValue.str "S"), ("sign_type", JSValue.str "T"),
       ("biz_content", JSValue.str "B"), ("appid", JSValue.str "A")] :=
  (canonicalKeys_no_reserved
    [("sign", JSValue.str "S"), ("sign_type", JSValue.str "T"),
     ("biz_content", JSValue.str "B"), ("appid", JSValue.str "A")]).1

/-- C3: in a mapping with distinct keys, an entry whose value is null,
undefined, or blank after string conversion contributes no key to the
canonical string of `createRawRequest`. -/
theorem blank_entries_excluded (params : Params) (k : String) (v : JSValue)
    (hnd : (params.map Prod.fst).Nodup) (hmem : (k, v) ∈ params)
    (hblank : v = JSValue.null ∨ v = JSValue.undef ∨ strTrim (jsToString v) = "") :
    k ∉ canonicalKeys params := by
  intro h
  rcases mem_filteredParams_keys.mp (mem_canonicalKeys.mp h) with ⟨v', hmem', hinc⟩
  have hv : v' = v := value_eq_of_nodup_keys hnd hmem' hmem
  subst hv
  rcases includeEntry_eq_true.mp hinc with ⟨-, h1, h2, h3⟩
  rcases hblank with hb | hb | hb
  · exact h1 hb
  · exact h2 hb
  · exact h3 hb

/-- C3 witness: a value holding only a no-break space is whitespace-only
for the JS trim, so its key stays out of the canonical string. -/
theorem blank_entries_excluded_witness :
    "c" ∉ canonicalKeys
      [("a", JSValue.null), ("b", JSValue.undef), ("c", JSValue.str "\u00A0"),
       ("d", JSValue.str "x")] :=
  blank_entries_excluded _ "c" (JSValue.str "\u00A0") (by decide) (by decide)
    (Or.inr (Or.inr (by decide)))

/-- C4: `createRawRequest` is deterministic in the mapping: two listings
of the same key-value associations, in any order, canonicalize to the
same string. -/
theorem createRawRequest_perm_invariant (p₁ p₂ : Params)
    (hnd : (p₁.map Prod.fst).Nodup) (hp : p₁.Perm p₂) :
    createRawRequest p₁ = createRawRequest p₂ := by
  unfold createRawRequest canonicalPairs
  rw [canonicalKeys_perm_eq hp]
  have hl : ∀ k, (filteredParams p₁).lookup k = (filteredParams p₂).lookup k :=
    lookup_eq_of_perm (filteredParams_keys_nodup hnd) (filteredParams_perm hp)
  exact congrArg _ (List.map_congr_left fun k _ => by rw [hl k])

/-- C4 witness: the same two-entry mapping listed in both orders. -/
theorem createRawRequest_perm_invariant_witness :
    createRawRequest [("b", JSValue.str "2"), ("a", JSValue.str "1")] =
      createRawRequest [("a", JSValue.str "1"), ("b", JSValue.str "2")] :=
  createRawRequest_perm_invariant _ _ (by decide) (by decide)

/-- C7: `createRawRequest` is total by construction (it is a plain
function into strings), the empty mapping canonicalizes to the empty
string, and so does any mapping all of whose entries are filtered out. -/
theorem createRawRequest_empty_and_excluded :
    createRawRequest ([] : Params) = "" ∧
      ∀ params : Params, (∀ p ∈ params, includeEntry p.1 p.2 = false) →
        createRawRequest params = "" := by
  refine ⟨rfl, fun params h => ?_⟩
  have hfil : params.filter (fun p => includeEntry p.1 p.2) = [] :=
    List.filter_eq_nil_iff.mpr fun a ha => by simp [h a ha]
  unfold createRawRequest canonicalPairs canonicalKeys filteredParams
  rw [hfil]
  rfl

/-- C7 witness: a mapping holding only an excluded key and a null value
canonicalizes to the empty string. -/
theorem createRawRequest_empty_and_excluded_witness :
    (∀ p ∈ [(("sign" : String), JSValue.str "x"), (("a" : String), JSValue.null)],
        includeEntry p.1 p.2 = false) ∧
      createRawRequest [("sign", JSValue.str "x"), ("a", JSValue.null)] = "" :=
  ⟨by decide, createRawRequest_empty_and_excluded.2 _ (by decide)⟩

/-- C10: trimming is only a blankness test — an included string value
appears in the canonical pairs verbatim, with its leading and trailing
whitespace preserved. -/
theorem included_value_verbatim (params : Params) (k s : String)
    (hnd : (params.map Prod.fst).Nodup) (hmem : (k, JSValue.str s) ∈ params)
    (hex : k ∉ excludedParams) (hs : strTrim s ≠ "") :
    (k ++ "=" ++ s) ∈ canonicalPairs params := by
  have hinc : includeEntry k (JSValue.str s) = true := by
    apply includeEntry_eq_true.mpr
    refine ⟨hex, ?_, ?_, hs⟩
    · intro h
      exact JSValue.noConfusion h
    · intro h
      exact JSValue.noConfusion h
  have hkmem : k ∈ canonicalKeys params :=
    mem_canonicalKeys.mpr (mem_filteredParams_keys.mpr ⟨JSValue.str s, hmem, hinc⟩)
  have hlk : (filteredParams params).lookup k = some s := by
    apply (lookup_eq_some_iff (filteredParams_keys_nodup hnd)).mpr
    unfold filteredParams
    exact List.mem_map.mpr ⟨(k, JSValue.str s), List.mem_filter.mpr ⟨hmem, hinc⟩, rfl⟩
  unfold canonicalPairs
  refine List.mem_map.mpr ⟨k, hkmem, ?_⟩
  rw [hlk]
  rfl

/-- C10 witness: the value of the spec example, a letter between spaces,
keeps its spaces in the canonical string. -/
theorem included_value_verbatim_witness :
    (("key" ++ "=" ++ " a ") ∈ canonicalPairs [("key", JSValue.str " a ")]) ∧
      createRawRequest [("key", JSValue.str " a ")] = "key= a " :=
  ⟨included_value_verbatim _ "key" " a " (by decide) (by decide) (by decide) (by decide),
    by decide⟩

/-- C5: whenever a usable private key resolves — one the JS falsy test
does not reject, that is, a nonempty one — `generateSignature` returns the
base64 encoding of whatever the RSA signing primitive produces when called
with the SHA-256 digest, PSS padding, salt length 32 and MGF1 over
SHA-256, on the UTF-8 bytes of the canonical string of the parameters. -/
theorem generateSignature_pss (cryptoSign : CryptoSign) (env : Env) (fs : FileSys)
    (params : Params) (key : String) (hk : loadPrivateKey env fs = some key)
    (hne : key ≠ "") :
    generateSignature cryptoSign env fs params =
      (cryptoSign ⟨"sha256", utf8Encode (createRawRequest params), key,
        RSAPadding.RSA_PKCS1_PSS_PADDING, 32, "sha256"⟩).map base64Encode := by
  unfold generateSignature
  rw [hk]
  cases h : cryptoSign ⟨"sha256", utf8Encode (createRawRequest params), key,
      RSAPadding.RSA_PKCS1_PSS_PADDING, 32, "sha256"⟩ <;> simp [h, hne, Except.map]

/-- C5 witness: with the key in the environment and a primitive answering
three fixed bytes, the result is their base64 encoding. -/
theorem generateSignature_pss_witness :
    loadPrivateKey ⟨some "KEY", none⟩ (fun _ => none) = some "KEY" ∧
      generateSignature (fun _ => Except.ok [0, 1, 2]) ⟨some "KEY", none⟩
        (fun _ => none) [] = Except.ok "AAEC" :=
  ⟨rfl, by
    rw [generateSignature_pss (fun _ => Except.ok [0, 1, 2]) ⟨some "KEY", none⟩
      (fun _ => none) [] "KEY" rfl (by decide)]
    rfl⟩

/-- C6: when no private key resolves, `generateSignature` fails with the
key-unavailable error instead of returning a signature. -/
theorem generateSignature_keyUnavailable (cryptoSign : CryptoSign) (env : Env)
    (fs : FileSys) (params : Params) (h : loadPrivateKey env fs = none) :
    generateSignature cryptoSign env fs params =
      Except.error "Private key not available for signing" := by
  unfold generateSignature
  rw [h]

/-- C6 witness: an empty environment resolves no key, so signing fails. -/
theorem generateSignature_keyUnavailable_witness :
    generateSignature (fun _ => Except.ok []) ⟨none, none⟩ (fun _ => none)
      [("a", JSValue.str "1")] = Except.error "Private key not available for signing" :=
  generateSignature_keyUnavailable _ _ _ _ rfl

/-- C8 counterexample: with the parameters and the signing primitive held
fixed, the result of `generateSignature` still changes with the process
environment — the signer takes no key argument and resolves the key
itself, so its result does not depend on its parameters alone. -/
theorem generateSignature_reads_environment :
    generateSignature (fun _ => Except.ok []) ⟨none, none⟩ (fun _ => none) [] ≠
      generateSignature (fun _ => Except.ok []) ⟨some "PEM", none⟩ (fun _ => none) [] := by
  intro h
  have h1 : generateSignature (fun _ => Except.ok []) ⟨none, none⟩ (fun _ => none) [] =
      Except.error "Private key not available for signing" := rfl
  have h2 : generateSignature (fun _ => Except.ok []) ⟨some "PEM", none⟩ (fun _ => none) [] =
      Except.ok "" := rfl
  rw [h1, h2] at h
  exact Except.noConfusion h

/-- C8 amended: `generateSignature` receives only the parameter mapping
and resolves the key itself through `loadPrivateKey`; it depends on the
environment and the filesystem exactly through the resolved key after the
JS falsy test — an absent or empty resolved key counts as no key — and on
that it behaves as the contract signer of the spec. -/
theorem generateSignature_factors (cryptoSign : CryptoSign) (env : Env)
    (fs : FileSys) (params : Params) :
    generateSignature cryptoSign env fs params =
      specSign cryptoSign
        (if truthy (loadPrivateKey env fs) then loadPrivateKey env fs else none)
        params := by
  unfold generateSignature specSign
  cases h : loadPrivateKey env fs with
  | none => rfl
  | some key =>
    by_cases hk : key = ""
    · subst hk
      rfl
    · simp [truthy, hk]

/-- C9: key resolution order — a truthy `PRIVATE_KEY` is returned as is;
otherwise a truthy `PRIVATE_KEY_PATH` is read from the filesystem, a
failed read included, and its optional result returned; with neither,
the key is absent. -/
theorem loadPrivateKey_resolution (env : Env) (fs : FileSys) :
    (truthy env.PRIVATE_KEY = true → loadPrivateKey env fs = env.PRIVATE_KEY) ∧
      (truthy env.PRIVATE_KEY = false → truthy env.PRIVATE_KEY_PATH = true →
        loadPrivateKey env fs = fs (env.PRIVATE_KEY_PATH.getD "")) ∧
      (truthy env.PRIVATE_KEY = false → truthy env.PRIVATE_KEY_PATH = false →
        loadPrivateKey env fs = none) := by
  refine ⟨fun h => ?_, fun h1 h2 => ?_, fun h1 h2 => ?_⟩
  · simp [loadPrivateKey, h]
  · simp only [loadPrivateKey, h1, h2, Bool.false_eq_true, if_false, if_true]
    cases fs (env.PRIVATE_KEY_PATH.getD "") <;> rfl
  · simp [loadPrivateKey, h1, h2]

/-- C9 witness: all three resolution outcomes on concrete environments,
including a failed file read treated as an absent key. -/
theorem loadPrivateKey_resolution_witness :
    loadPrivateKey ⟨some "PEM", some "p"⟩ (fun _ => some "FILE") = some "PEM" ∧
      loadPrivateKey ⟨none, some "p"⟩ (fun _ => some "FILE") = some "FILE" ∧
      loadPrivateKey ⟨none, some "p"⟩ (fun _ => none) = none ∧
      loadPrivateKey ⟨none, none⟩ (fun _ => some "FILE") = none := by
  refine ⟨?_, ?_, ?_, ?_⟩
  · exact (loadPrivateKey_resolution ⟨some "PEM", some "p"⟩ _).1 (by decide)
  · exact (loadPrivateKey_resolution ⟨none, some "p"⟩ _).2.1 (by decide) (by decide)
  · exact (loadPrivateKey_resolution ⟨none, some "p"⟩ _).2.1 (by decide) (by decide)
  · exact (loadPrivateKey_resolution ⟨none, none⟩ _).2.2 (by decide) (by decide)
